import Mathlib

/-!
Verification of the DecisionDeck vote ledger (server/routes/votes.js,
server/models/Vote.js, server/models/User.js including the Candidate schema,
and server/middleware/auth.js) as a shallow embedding.

Mongo documents become Lean structures; the database becomes explicit lists
of documents; each route handler becomes a function from database state to
(result, database state).  JavaScript `Math.max(0, n - 1)` on counters is
truncated subtraction on `Nat`.  Persistence (`save`, `findOne`, queries)
is modelled as plain state reads and writes.
-/

namespace DecisionDeck

/-- A document of the Candidate collection (candidateSchema in
server/models/User.js): name, position label, active flag and the
denormalized vote counter.  Fields not read by the vote ledger routes
(party, description, image, metadata) are omitted. -/
structure Candidate where
  id : Nat
  name : String
  position : String
  isActive : Bool
  voteCount : Nat
deriving Repr, DecidableEq

/-- A document of the Vote collection (voteSchema in server/models/Vote.js):
voter and candidate references, the position string, the validity flag
(default true) and the creation timestamp added by `timestamps: true`.
The submission metadata fields (ipAddress, userAgent) are not read by any
route under verification and are omitted. -/
structure Vote where
  id : Nat
  voter : Nat
  candidate : Nat
  position : String
  isValid : Bool
  createdAt : Nat
deriving Repr, DecidableEq

/-- The persistent store: the Candidates and Votes collections. -/
structure DB where
  candidates : List Candidate
  votes : List Vote
deriving Repr, DecidableEq

/-- Candidate.findById(candidateId). -/
def findCandidate (db : DB) (cid : Nat) : Option Candidate :=
  db.candidates.find? (fun c => c.id == cid)

/-- Vote.findOne({ voter, position }) — the application-level duplicate
check in POST / (routes/votes.js lines 36-39).  Note it does not filter
on isValid. -/
def findVoteByVoterPosition (db : DB) (voterId : Nat) (position : String) : Option Vote :=
  db.votes.find? (fun w => w.voter == voterId && w.position == position)

/-- Vote.findById(id) — used by PUT /:id/invalidate. -/
def findVote (db : DB) (voteId : Nat) : Option Vote :=
  db.votes.find? (fun w => w.id == voteId)

/-- `vote.save()` on a new Vote document, guarded by the storage-layer
unique index on (voter, position) from voteSchema.index (Vote.js line 36):
the insert is rejected when a document with the same (voter, position)
already exists, regardless of its validity flag. -/
def insertVote (db : DB) (w : Vote) : Option DB :=
  if (findVoteByVoterPosition db w.voter w.position).isSome then none
  else some { db with votes := db.votes ++ [w] }

/-- `candidate.save()` after mutating a candidate document found by id:
the stored documents with that id are replaced by the mutated version. -/
def updateCandidate (db : DB) (cid : Nat) (f : Candidate → Candidate) : DB :=
  { db with candidates := db.candidates.map (fun c => if c.id == cid then f c else c) }

/-- Outcome of POST / (submit vote). -/
inductive CastResult where
  /-- 201, vote submitted successfully, body carries the vote id. -/
  | created (voteId : Nat)
  /-- 404 "Candidate not found" — candidate missing or inactive. -/
  | candidateNotFound
  /-- 400 "You have already voted for this position". -/
  | duplicateVote
  /-- 500 "Server error" — the catch-all; in particular a storage-layer
  unique-index rejection of the insert surfaces here. -/
  | serverError
deriving Repr, DecidableEq

/-- POST / (submit vote), routes/votes.js lines 17-84: look up the
candidate (404 when missing or inactive), reject a duplicate
(voter, position) pair (400), otherwise insert the Vote with the
request-supplied position and increment the candidate's voteCount.
`newVoteId` and `createdAt` stand for the id and timestamp the store
assigns to the inserted document. -/
def castVote (db : DB) (voterId candidateId : Nat) (position : String)
    (newVoteId createdAt : Nat) : CastResult × DB :=
  match findCandidate db candidateId with
  | none => (.candidateNotFound, db)
  | some cand =>
    if !cand.isActive then (.candidateNotFound, db)
    else if (findVoteByVoterPosition db voterId position).isSome then
      (.duplicateVote, db)
    else
      let w : Vote := { id := newVoteId, voter := voterId, candidate := candidateId,
                        position := position, isValid := true, createdAt := createdAt }
      match insertVote db w with
      | none => (.serverError, db)
      | some db1 =>
        (.created newVoteId,
         updateCandidate db1 candidateId (fun c => { c with voteCount := c.voteCount + 1 }))

/-- Outcome of PUT /:id/invalidate. -/
inductive InvalidateResult where
  /-- 200 "Vote invalidated successfully". -/
  | ok
  /-- 403 "Admin access required". -/
  | adminRequired
  /-- 404 "Vote not found". -/
  | voteNotFound
deriving Repr, DecidableEq

/-- `vote.isValid = false; vote.save()` — the stored document with the
given id has its validity flag cleared. -/
def setVoteInvalid (voteId : Nat) (w : Vote) : Vote :=
  if w.id == voteId then { w with isValid := false } else w

/-- PUT /:id/invalidate, routes/votes.js lines 244-270: admin-gated; finds
the vote (404 when missing), sets isValid to false without checking the
current flag, then decrements the referenced candidate's counter with
Math.max(0, voteCount - 1) — truncated Nat subtraction here. -/
def invalidateVote (db : DB) (isAdmin : Bool) (voteId : Nat) : InvalidateResult × DB :=
  if !isAdmin then (.adminRequired, db)
  else
    match findVote db voteId with
    | none => (.voteNotFound, db)
    | some w =>
      let db1 : DB := { db with votes := db.votes.map (setVoteInvalid voteId) }
      match findCandidate db1 w.candidate with
      | none => (.ok, db1)
      | some _ =>
        (.ok, updateCandidate db1 w.candidate
          (fun c => { c with voteCount := c.voteCount - 1 }))

/-- Sort order used by GET /results/:position: voteCount descending. -/
def byVoteCountDesc (a b : Candidate) : Prop := b.voteCount ≤ a.voteCount

instance : DecidableRel byVoteCountDesc := fun a b => Nat.decLe b.voteCount a.voteCount

instance : IsTotal Candidate byVoteCountDesc := ⟨fun a b => (le_total b.voteCount a.voteCount)⟩

instance : IsTrans Candidate byVoteCountDesc :=
  ⟨fun _ _ _ hab hbc => le_trans hbc hab⟩

/-- One entry of the results array of GET /results/:position.  The route's
`toFixed(2)` formats the ratio for display; the model keeps the exact
rational value it rounds. -/
structure ResultEntry where
  id : Nat
  name : String
  voteCount : Nat
  percentage : Rat
deriving Repr, DecidableEq

/-- Response of GET /results/:position. -/
structure ResultsResponse where
  results : List ResultEntry
  totalVotes : Nat
  totalCandidates : Nat
deriving Repr, DecidableEq

/-- GET /results/:position, routes/votes.js lines 87-122: active candidates
of the position sorted by voteCount descending; totalVotes is
Vote.countDocuments({ position }) — every Vote record stored for the
position, valid or not; percentage is (voteCount / totalVotes) * 100,
or the number 0 when totalVotes is 0. -/
def resultsForPosition (db : DB) (position : String) : ResultsResponse :=
  let cands := (db.candidates.filter (fun c => c.position == position && c.isActive))
  let sorted := List.insertionSort byVoteCountDesc cands
  let totalVotes := (db.votes.filter (fun w => w.position == position)).length
  { results := sorted.map (fun c =>
      { id := c.id, name := c.name, voteCount := c.voteCount,
        percentage :=
          if totalVotes > 0 then ((c.voteCount : Rat) / (totalVotes : Rat)) * 100 else 0 })
    totalVotes := totalVotes
    totalCandidates := cands.length }

/-- Sort order used by GET /history: createdAt descending. -/
def byCreatedAtDesc (a b : Vote) : Prop := b.createdAt ≤ a.createdAt

instance : DecidableRel byCreatedAtDesc := fun a b => Nat.decLe b.createdAt a.createdAt

instance : IsTotal Vote byCreatedAtDesc := ⟨fun a b => (le_total b.createdAt a.createdAt)⟩

instance : IsTrans Vote byCreatedAtDesc :=
  ⟨fun _ _ _ hab hbc => le_trans hbc hab⟩

/-- Response of GET /history. -/
structure HistoryResponse where
  votes : List Vote
  totalPages : Nat
  currentPage : Nat
  total : Nat
deriving Repr, DecidableEq

/-- GET /history, routes/votes.js lines 125-148: the caller's own votes,
sorted createdAt descending, skipping (page - 1) * limit and taking limit;
totalPages is Math.ceil(total / limit), rendered on Nat as
(total + limit - 1) / limit. -/
def votingHistory (db : DB) (voterId : Nat) (page limit : Nat) : HistoryResponse :=
  let mine := db.votes.filter (fun w => w.voter == voterId)
  let sorted := List.insertionSort byCreatedAtDesc mine
  { votes := (sorted.drop ((page - 1) * limit)).take limit
    totalPages := (mine.length + limit - 1) / limit
    currentPage := page
    total := mine.length }

/-- Number of valid Vote records referencing a candidate id. -/
def countValidVotes (votes : List Vote) (cid : Nat) : Nat :=
  (votes.filter (fun w => w.candidate == cid && w.isValid)).length

/-- Counter consistency: every candidate's denormalized voteCount equals
the number of valid Vote records referencing it. -/
def Consistent (db : DB) : Prop :=
  ∀ c ∈ db.candidates, c.voteCount = countValidVotes db.votes c.id

instance (db : DB) : Decidable (Consistent db) :=
  inferInstanceAs (Decidable (∀ c ∈ db.candidates, c.voteCount = countValidVotes db.votes c.id))

/-- The candidate referenced by the id exists and is active. -/
def activeCandidate (db : DB) (cid : Nat) : Bool :=
  match findCandidate db cid with
  | some c => c.isActive
  | none => false

/-- A sequence of POST / submissions by one voter for one position; each
request supplies a candidate id together with the vote id and timestamp
the store would assign. -/
def castSeq (db : DB) (voterId : Nat) (position : String) :
    List (Nat × Nat × Nat) → List CastResult × DB
  | [] => ([], db)
  | (cid, vid, ts) :: rest =>
    let step := castVote db voterId cid position vid ts
    let restRun := castSeq step.2 voterId position rest
    (step.1 :: restRun.1, restRun.2)

/-- Whether a CastResult is the 201 success. -/
def CastResult.isCreated : CastResult → Bool
  | .created _ => true
  | _ => false

/-- n repeated PUT /:id/invalidate calls on the same vote id. -/
def iterateInvalidate (db : DB) (voteId : Nat) : Nat → DB
  | 0 => db
  | n + 1 => iterateInvalidate (invalidateVote db true voteId).2 voteId n

/-- The fixed window of the authentication rate limiter
(middleware/auth.js line 591): 15 minutes in milliseconds. -/
def windowMs : Nat := 15 * 60 * 1000

/-- The attempt cap of the authentication rate limiter
(middleware/auth.js line 592). -/
def maxAttempts : Nat := 5

/-- One entry of the authAttempts map. -/
structure RLEntry where
  count : Nat
  resetTime : Nat
deriving Repr, DecidableEq

/-- authAttempts.get(ip) on the address-keyed map. -/
def lookupRL : List (String × RLEntry) → String → Option RLEntry
  | [], _ => none
  | (k, e) :: rest, ip => if k == ip then some e else lookupRL rest ip

/-- authAttempts.set(ip, e) (also models in-place mutation of the stored
entry object). -/
def setRL : List (String × RLEntry) → String → RLEntry → List (String × RLEntry)
  | [], ip, e => [(ip, e)]
  | (k, e0) :: rest, ip, e =>
    if k == ip then (k, e) :: rest else (k, e0) :: setRL rest ip e

/-- rateLimitAuth (middleware/auth.js lines 588-614): fixed-window counter
keyed by client address.  A missing entry starts at count 0 with
resetTime = now + windowMs; an expired entry (now strictly past resetTime)
is reset; a request at or above maxAttempts is answered 429 (false) without
incrementing; otherwise the count is incremented and the request proceeds
(true). -/
def rateLimitAuth (m : List (String × RLEntry)) (ip : String) (now : Nat) :
    Bool × List (String × RLEntry) :=
  let e0 : RLEntry :=
    match lookupRL m ip with
    | none => { count := 0, resetTime := now + windowMs }
    | some e => e
  let e1 : RLEntry :=
    if e0.resetTime < now then { count := 0, resetTime := now + windowMs } else e0
  if maxAttempts ≤ e1.count then (false, setRL m ip e1)
  else (true, setRL m ip { e1 with count := e1.count + 1 })

/-- Run a list of timestamped requests from one address through
rateLimitAuth, counting how many were allowed through. -/
def rateLimitRun (m : List (String × RLEntry)) (ip : String) :
    List Nat → Nat × List (String × RLEntry)
  | [] => (0, m)
  | t :: ts =>
    let step := rateLimitAuth m ip t
    let rest := rateLimitRun step.2 ip ts
    ((if step.1 then 1 else 0) + rest.1, rest.2)

/-- Modelled from the spec's words, for comparison with the code: the
spec's percentage formula for GET /results/:position, voteCount divided by
the sum of voteCount over the active candidates of the position (as a
percentage), zero when that sum is zero. -/
def specActiveSumPercentage (db : DB) (position : String) (c : Candidate) : Rat :=
  let s := ((db.candidates.filter (fun d => d.position == position && d.isActive)).map
    (fun d => d.voteCount)).sum
  if s = 0 then 0 else ((c.voteCount : Rat) / (s : Rat)) * 100

/-- Concrete store: one active candidate, no votes. -/
def exDB0 : DB := { candidates := [⟨1, "X", "p", true, 0⟩], votes := [] }

/-- exDB0 after voter 10 votes for candidate 1. -/
def exDB1 : DB := (castVote exDB0 10 1 "p" 100 0).2

/-- exDB1 after voter 11 votes for candidate 1. -/
def exDB2 : DB := (castVote exDB1 11 1 "p" 101 1).2

/-- exDB2 after an admin invalidates vote 100. -/
def exDB3 : DB := (invalidateVote exDB2 true 100).2

/-- exDB3 after an admin invalidates vote 100 a second time. -/
def exDB4 : DB := (invalidateVote exDB3 true 100).2

/-- Concrete store for the position-mismatch scenario: candidate 1 holds
position "President" and no votes exist. -/
def exMismatchDB : DB := { candidates := [⟨1, "X", "President", true, 0⟩], votes := [] }

/-- Concrete store for the voting-history scenario: voter 5 has three
votes, voter 6 one. -/
def exHistDB : DB :=
  { candidates := [],
    votes := [⟨1, 5, 1, "p", true, 3⟩, ⟨2, 5, 1, "q", true, 7⟩,
              ⟨3, 6, 1, "p", true, 5⟩, ⟨4, 5, 2, "r", true, 1⟩] }

/-! ## Helper lemmas -/

theorem castVote_success (db : DB) (v cid vid ts : Nat) (p : String) (c : Candidate)
    (hc : findCandidate db cid = some c) (ha : c.isActive = true)
    (hs : findVoteByVoterPosition db v p = none) :
    castVote db v cid p vid ts
      = (.created vid,
         { candidates := db.candidates.map
             (fun d => if d.id == cid then { d with voteCount := d.voteCount + 1 } else d),
           votes := db.votes ++ [⟨vid, v, cid, p, true, ts⟩] }) := by
  unfold castVote insertVote
  rw [hc]
  simp [ha, hs, updateCandidate]

theorem castVote_duplicate (db : DB) (v cid vid ts : Nat) (p : String)
    (hact : activeCandidate db cid = true)
    (hdup : (findVoteByVoterPosition db v p).isSome = true) :
    castVote db v cid p vid ts = (.duplicateVote, db) := by
  unfold activeCandidate at hact
  cases hfc : findCandidate db cid with
  | none => rw [hfc] at hact; simp at hact
  | some c =>
    rw [hfc] at hact
    simp only [] at hact
    unfold castVote
    rw [hfc]
    simp [hact, hdup]

/-! ## C2 — no position-mismatch check -/

/-- C2 counterexample: candidate 1 is stored under position "President"
and is active, yet a vote request supplying position "Treasurer" succeeds
with 201 and records a vote under "Treasurer"; the claimed
PositionMismatch failure does not occur and the vote is recorded under the
request-supplied position rather than the candidate's stored one. -/
theorem castVote_position_mismatch_cex :
    (findCandidate exMismatchDB 1).map Candidate.position = some "President" ∧
      (castVote exMismatchDB 7 1 "Treasurer" 100 0).1 = .created 100 ∧
      (⟨100, 7, 1, "Treasurer", true, 0⟩ : Vote)
        ∈ (castVote exMismatchDB 7 1 "Treasurer" 100 0).2.votes := by
  decide

/-- C2 (amended): castVote performs no position-mismatch check; when the
candidate exists and is active and the voter's slot for the supplied
position is free, the vote is accepted even though the candidate's stored
position differs from the supplied one, and it is recorded under the
request-supplied position. -/
theorem castVote_records_supplied_position (db : DB) (v cid vid ts : Nat) (p : String)
    (c : Candidate) (hc : findCandidate db cid = some c) (ha : c.isActive = true)
    (hm : c.position ≠ p) (hs : findVoteByVoterPosition db v p = none) :
    (castVote db v cid p vid ts).1 = .created vid ∧
      (⟨vid, v, cid, p, true, ts⟩ : Vote) ∈ (castVote db v cid p vid ts).2.votes := by
  rw [castVote_success db v cid vid ts p c hc ha hs]
  exact ⟨rfl, by simp⟩

theorem castVote_records_supplied_position_witness :
    (findCandidate exMismatchDB 1 = some ⟨1, "X", "President", true, 0⟩ ∧
        (⟨1, "X", "President", true, 0⟩ : Candidate).isActive = true ∧
        (⟨1, "X", "President", true, 0⟩ : Candidate).position ≠ "Treasurer" ∧
        findVoteByVoterPosition exMismatchDB 7 "Treasurer" = none) ∧
      ((castVote exMismatchDB 7 1 "Treasurer" 101 2).1 = .created 101 ∧
        (⟨101, 7, 1, "Treasurer", true, 2⟩ : Vote)
          ∈ (castVote exMismatchDB 7 1 "Treasurer" 101 2).2.votes) :=
  ⟨⟨rfl, rfl, by decide, rfl⟩,
   castVote_records_supplied_position exMismatchDB 7 1 101 2 "Treasurer"
     ⟨1, "X", "President", true, 0⟩ rfl rfl (by decide) rfl⟩

/-! ## C6 — invalidation does not free the (voter, position) slot -/

/-- C6: an invalidated vote still occupies the (voter, position) slot. The
duplicate check of POST / (Vote.findOne({voter, position})) does not
filter on isValid, and the unique index is on (voter, position) alone, so
a re-vote by the same voter for the same position is rejected with
DuplicateVote and the store is left unchanged. -/
theorem invalidation_does_not_free_slot (db : DB) (v cid vid ts : Nat) (p : String)
    (w : Vote) (hw : w ∈ db.votes) (hv : w.voter = v) (hp : w.position = p)
    (hinv : w.isValid = false) (hact : activeCandidate db cid = true) :
    (castVote db v cid p vid ts).1 = .duplicateVote ∧
      (castVote db v cid p vid ts).2 = db := by
  have hdup : (findVoteByVoterPosition db v p).isSome = true := by
    unfold findVoteByVoterPosition
    rw [List.find?_isSome]
    exact ⟨w, hw, by simp [hv, hp]⟩
  rw [castVote_duplicate db v cid vid ts p hact hdup]
  exact ⟨rfl, rfl⟩

theorem invalidation_does_not_free_slot_witness :
    ((⟨100, 10, 1, "p", false, 0⟩ : Vote) ∈ exDB3.votes ∧
        (⟨100, 10, 1, "p", false, 0⟩ : Vote).voter = 10 ∧
        (⟨100, 10, 1, "p", false, 0⟩ : Vote).position = "p" ∧
        (⟨100, 10, 1, "p", false, 0⟩ : Vote).isValid = false ∧
        activeCandidate exDB3 1 = true) ∧
      ((castVote exDB3 10 1 "p" 102 2).1 = .duplicateVote ∧
        (castVote exDB3 10 1 "p" 102 2).2 = exDB3) :=
  ⟨⟨by decide, rfl, rfl, rfl, by decide⟩,
   invalidation_does_not_free_slot exDB3 10 1 102 2 "p" ⟨100, 10, 1, "p", false, 0⟩
     (by decide) rfl rfl rfl (by decide)⟩

/-! ## C10 — frame property of a successful castVote -/

/-- C10: a successful castVote appends exactly one new Vote record (every
pre-existing record is kept unchanged) and touches only candidates with
the chosen id; every other candidate document is left exactly as it
was. -/
theorem castVote_frame (db : DB) (v cid vid ts : Nat) (p : String) (vidr : Nat)
    (h : (castVote db v cid p vid ts).1 = .created vidr) :
    (castVote db v cid p vid ts).2.votes = db.votes ++ [⟨vid, v, cid, p, true, ts⟩] ∧
      (∀ x ∈ db.votes, x ∈ (castVote db v cid p vid ts).2.votes) ∧
      (castVote db v cid p vid ts).2.candidates
        = db.candidates.map
            (fun d => if d.id == cid then { d with voteCount := d.voteCount + 1 } else d) ∧
      ∀ d ∈ db.candidates, d.id ≠ cid → d ∈ (castVote db v cid p vid ts).2.candidates := by
  cases hfc : findCandidate db cid with
  | none =>
    unfold castVote at h
    rw [hfc] at h
    simp at h
  | some c =>
    cases hA : c.isActive with
    | false =>
      unfold castVote at h
      rw [hfc] at h
      simp [hA] at h
    | true =>
      cases hdup : findVoteByVoterPosition db v p with
      | some w =>
        unfold castVote at h
        rw [hfc] at h
        simp [hA, hdup] at h
      | none =>
        rw [castVote_success db v cid vid ts p c hfc hA hdup]
        refine ⟨rfl, ?_, rfl, ?_⟩
        · intro x hx
          simp [hx]
        · intro d hd hne
          have heq : (fun d : Candidate =>
              if d.id == cid then { d with voteCount := d.voteCount + 1 } else d) d = d := by
            simp [hne]
          have hmem := List.mem_map_of_mem (fun d : Candidate =>
            if d.id == cid then { d with voteCount := d.voteCount + 1 } else d) hd
          rwa [heq] at hmem

theorem castVote_frame_witness :
    ((castVote exDB0 10 1 "p" 100 0).1 = .created 100) ∧
      ((castVote exDB0 10 1 "p" 100 0).2.votes
          = exDB0.votes ++ [⟨100, 10, 1, "p", true, 0⟩] ∧
        (∀ x ∈ exDB0.votes, x ∈ (castVote exDB0 10 1 "p" 100 0).2.votes) ∧
        (castVote exDB0 10 1 "p" 100 0).2.candidates
          = exDB0.candidates.map
              (fun d => if d.id == 1 then { d with voteCount := d.voteCount + 1 } else d) ∧
        ∀ d ∈ exDB0.candidates, d.id ≠ 1 →
          d ∈ (castVote exDB0 10 1 "p" 100 0).2.candidates) :=
  ⟨rfl, castVote_frame exDB0 10 1 100 0 "p" 100 rfl⟩

/-! ## Helper lemmas about invalidation -/

theorem setVoteInvalid_id (vid : Nat) (x : Vote) : (setVoteInvalid vid x).id = x.id := by
  unfold setVoteInvalid
  split <;> rfl

theorem findVote_map_setInvalid (votes : List Vote) (vid : Nat) (w : Vote)
    (hf : votes.find? (fun x => x.id == vid) = some w) :
    (votes.map (setVoteInvalid vid)).find? (fun x => x.id == vid)
      = some { w with isValid := false } := by
  have hpred : ((fun x : Vote => x.id == vid) ∘ setVoteInvalid vid)
      = (fun x : Vote => x.id == vid) := by
    funext x
    simp [Function.comp, setVoteInvalid_id]
  rw [List.find?_map, hpred, hf]
  have hid : (w.id == vid) = true := by simpa using List.find?_some hf
  simp [setVoteInvalid, hid]

theorem invalidate_found (db : DB) (vid : Nat) (w : Vote)
    (hf : findVote db vid = some w) :
    (invalidateVote db true vid).1 = .ok ∧
      (invalidateVote db true vid).2.votes = db.votes.map (setVoteInvalid vid) ∧
      ∀ c ∈ db.candidates,
        (c.id = w.candidate →
          { c with voteCount := c.voteCount - 1 }
            ∈ (invalidateVote db true vid).2.candidates) ∧
        (c.id ≠ w.candidate → c ∈ (invalidateVote db true vid).2.candidates) := by
  unfold invalidateVote
  rw [hf]
  simp only [Bool.not_true, Bool.false_eq_true, if_false]
  cases hfc : findCandidate { db with votes := db.votes.map (setVoteInvalid vid) } w.candidate with
  | none =>
    refine ⟨rfl, rfl, ?_⟩
    intro c hc
    have hall := List.find?_eq_none.mp hfc
    constructor
    · intro hid
      exact absurd (by simp [hid] : (c.id == w.candidate) = true) (hall c hc)
    · intro _
      exact hc
  | some c0 =>
    refine ⟨rfl, rfl, ?_⟩
    intro c hc
    constructor
    · intro hid
      exact List.mem_map.mpr ⟨c, hc, by simp [hid]⟩
    · intro hne
      exact List.mem_map.mpr ⟨c, hc, by simp [hne]⟩

theorem invalidate_found_findVote (db : DB) (vid : Nat) (w : Vote)
    (hf : findVote db vid = some w) :
    findVote (invalidateVote db true vid).2 vid = some { w with isValid := false } := by
  have hv := (invalidate_found db vid w hf).2.1
  unfold findVote at hf ⊢
  rw [hv]
  exact findVote_map_setInvalid db.votes vid w hf

theorem countValidVotes_pos (votes : List Vote) (w : Vote) (hw : w ∈ votes)
    (hv : w.isValid = true) :
    1 ≤ countValidVotes votes w.candidate := by
  unfold countValidVotes
  have hmem : w ∈ votes.filter (fun x => x.candidate == w.candidate && x.isValid) := by
    rw [List.mem_filter]
    exact ⟨hw, by simp [hv]⟩
  exact List.length_pos.mpr (List.ne_nil_of_mem hmem)

theorem iterate_invalidate_mem (vid : Nat) :
    ∀ (n : Nat) (db : DB) (w : Vote), findVote db vid = some w →
      ∀ c ∈ db.candidates, c.id = w.candidate →
        { c with voteCount := c.voteCount - n } ∈ (iterateInvalidate db vid n).candidates := by
  intro n
  induction n with
  | zero =>
    intro db w _ c hc _
    simpa [iterateInvalidate] using hc
  | succ n IH =>
    intro db w hf c hc hid
    have hstep := invalidate_found db vid w hf
    have hc1 : { c with voteCount := c.voteCount - 1 }
        ∈ (invalidateVote db true vid).2.candidates := (hstep.2.2 c hc).1 hid
    have hf1 := invalidate_found_findVote db vid w hf
    have hrec := IH (invalidateVote db true vid).2 { w with isValid := false } hf1
      { c with voteCount := c.voteCount - 1 } hc1 (by simpa using hid)
    have harith : c.voteCount - 1 - n = c.voteCount - (n + 1) := by omega
    rw [iterateInvalidate]
    simpa [harith] using hrec

/-! ## C9 — invalidateVote is not idempotent -/

/-- C9: invalidating an already-invalid vote still succeeds (200) and
decrements the referenced candidate's counter by one more, floored at
zero by the truncated subtraction; iterating, n invalidations of the same
vote reduce the counter by up to n. -/
theorem invalidate_not_idempotent (db : DB) (vid : Nat) (w : Vote)
    (hf : findVote db vid = some w) (hinv : w.isValid = false) :
    (invalidateVote db true vid).1 = .ok ∧
      (∀ c ∈ db.candidates, c.id = w.candidate →
        { c with voteCount := c.voteCount - 1 } ∈ (invalidateVote db true vid).2.candidates) ∧
      ∀ n, ∀ c ∈ db.candidates, c.id = w.candidate →
        { c with voteCount := c.voteCount - n } ∈ (iterateInvalidate db vid n).candidates := by
  refine ⟨(invalidate_found db vid w hf).1, ?_, ?_⟩
  · intro c hc hid
    exact ((invalidate_found db vid w hf).2.2 c hc).1 hid
  · intro n c hc hid
    exact iterate_invalidate_mem vid n db w hf c hc hid

theorem invalidate_not_idempotent_witness :
    (findVote exDB3 100 = some ⟨100, 10, 1, "p", false, 0⟩ ∧
        (⟨100, 10, 1, "p", false, 0⟩ : Vote).isValid = false) ∧
      ((invalidateVote exDB3 true 100).1 = .ok ∧
        (∀ c ∈ exDB3.candidates, c.id = (⟨100, 10, 1, "p", false, 0⟩ : Vote).candidate →
          { c with voteCount := c.voteCount - 1 }
            ∈ (invalidateVote exDB3 true 100).2.candidates) ∧
        ∀ n, ∀ c ∈ exDB3.candidates, c.id = (⟨100, 10, 1, "p", false, 0⟩ : Vote).candidate →
          { c with voteCount := c.voteCount - n }
            ∈ (iterateInvalidate exDB3 100 n).candidates) :=
  ⟨⟨by decide, rfl⟩,
   invalidate_not_idempotent exDB3 100 ⟨100, 10, 1, "p", false, 0⟩ (by decide) rfl⟩

/-! ## C4 — invalidating a valid vote -/

/-- C4: in a counter-consistent store, invalidating a valid vote succeeds,
keeps the Vote record (same record count, the record still present with
isValid = false), and decrements the referenced candidate's counter by
exactly one; the counter was at least 1 beforehand and the truncated
subtraction (Math.max(0, n-1)) never drives it below zero. -/
theorem invalidate_valid_vote_spec (db : DB) (vid : Nat) (w : Vote)
    (hC : Consistent db) (hf : findVote db vid = some w) (hv : w.isValid = true) :
    (invalidateVote db true vid).1 = .ok ∧
      ({ w with isValid := false } ∈ (invalidateVote db true vid).2.votes) ∧
      (invalidateVote db true vid).2.votes.length = db.votes.length ∧
      ∀ c ∈ db.candidates, c.id = w.candidate →
        1 ≤ c.voteCount ∧
          { c with voteCount := c.voteCount - 1 }
            ∈ (invalidateVote db true vid).2.candidates := by
  obtain ⟨h1, h2, h3⟩ := invalidate_found db vid w hf
  have hw : w ∈ db.votes := List.mem_of_find?_eq_some hf
  refine ⟨h1, ?_, ?_, ?_⟩
  · rw [h2]
    have hid : (w.id == vid) = true := by simpa using List.find?_some hf
    exact List.mem_map.mpr ⟨w, hw, by simp [setVoteInvalid, hid]⟩
  · rw [h2]
    simp
  · intro c hc hcid
    refine ⟨?_, (h3 c hc).1 hcid⟩
    rw [hC c hc, hcid]
    exact countValidVotes_pos db.votes w hw hv

theorem invalidate_valid_vote_spec_witness :
    (Consistent exDB3 ∧ findVote exDB3 101 = some ⟨101, 11, 1, "p", true, 1⟩ ∧
        (⟨101, 11, 1, "p", true, 1⟩ : Vote).isValid = true) ∧
      ((invalidateVote exDB3 true 101).1 = .ok ∧
        ({ (⟨101, 11, 1, "p", true, 1⟩ : Vote) with isValid := false }
          ∈ (invalidateVote exDB3 true 101).2.votes) ∧
        (invalidateVote exDB3 true 101).2.votes.length = exDB3.votes.length ∧
        ∀ c ∈ exDB3.candidates, c.id = (⟨101, 11, 1, "p", true, 1⟩ : Vote).candidate →
          1 ≤ c.voteCount ∧
            { c with voteCount := c.voteCount - 1 }
              ∈ (invalidateVote exDB3 true 101).2.candidates) :=
  ⟨⟨by decide, by decide, rfl⟩,
   invalidate_valid_vote_spec exDB3 101 ⟨101, 11, 1, "p", true, 1⟩ (by decide) (by decide) rfl⟩

/-! ## Helper lemmas about vote counting -/

theorem countValidVotes_append (l1 l2 : List Vote) (cid : Nat) :
    countValidVotes (l1 ++ l2) cid = countValidVotes l1 cid + countValidVotes l2 cid := by
  unfold countValidVotes
  simp [List.filter_append]

theorem countValidVotes_single (w : Vote) (cid : Nat) :
    countValidVotes [w] cid = if w.candidate == cid && w.isValid then 1 else 0 := by
  by_cases h : (w.candidate == cid && w.isValid) = true <;>
    simp [countValidVotes, List.filter_cons, h]

theorem countValidVotes_cons (x : Vote) (votes : List Vote) (cid : Nat) :
    countValidVotes (x :: votes) cid
      = (if x.candidate == cid && x.isValid then 1 else 0) + countValidVotes votes cid := by
  by_cases h : (x.candidate == cid && x.isValid) = true <;>
    simp [countValidVotes, List.filter_cons, h, Nat.add_comm]

theorem consistent_castVote (db : DB) (hC : Consistent db) (v cid vid ts : Nat) (p : String) :
    Consistent (castVote db v cid p vid ts).2 := by
  cases hfc : findCandidate db cid with
  | none =>
    unfold castVote
    rw [hfc]
    exact hC
  | some c =>
    cases hA : c.isActive with
    | false =>
      unfold castVote
      rw [hfc]
      simpa [hA] using hC
    | true =>
      cases hdup : findVoteByVoterPosition db v p with
      | some w =>
        unfold castVote
        rw [hfc]
        simpa [hA, hdup] using hC
      | none =>
        rw [castVote_success db v cid vid ts p c hfc hA hdup]
        intro c1 hc1
        obtain ⟨c0, hc0, rfl⟩ := List.mem_map.mp hc1
        by_cases hid : (c0.id == cid) = true
        · have hcideq : c0.id = cid := by simpa using hid
          rw [if_pos hid]
          show c0.voteCount + 1 = countValidVotes _ _
          rw [countValidVotes_append, countValidVotes_single]
          simp only [if_pos hid]
          simp [hcideq, hC c0 hc0]
        · have hcne : c0.id ≠ cid := by simpa using hid
          rw [if_neg hid]
          rw [countValidVotes_append, countValidVotes_single]
          have hne0 : (cid == c0.id) = false := by
            simp [(Ne.symm hcne)]
          simp [hne0, hC c0 hc0]

theorem countValidVotes_setInvalid (vid cid : Nat) :
    ∀ (votes : List Vote) (w : Vote),
      (votes.map (fun x => x.id)).Nodup →
      votes.find? (fun x => x.id == vid) = some w →
      w.isValid = true →
      (if w.candidate == cid then 1 else 0) ≤ countValidVotes votes cid ∧
        countValidVotes (votes.map (setVoteInvalid vid)) cid
          = countValidVotes votes cid - (if w.candidate == cid then 1 else 0) := by
  intro votes
  induction votes with
  | nil =>
    intro w _ hf _
    simp at hf
  | cons x rest IH =>
    intro w hnd hf hv
    have hnd1 : x.id ∉ rest.map (fun y => y.id) ∧ (rest.map (fun y => y.id)).Nodup := by
      simpa [List.nodup_cons] using hnd
    cases hx : (x.id == vid) with
    | true =>
      have hwx : w = x := by
        rw [@List.find?_cons_of_pos _ (fun y => y.id == vid) x rest hx] at hf
        exact (Option.some_inj.mp hf).symm
      have hxid : x.id = vid := by simpa using hx
      have hrest : rest.map (setVoteInvalid vid) = rest := by
        have h1 : rest.map (setVoteInvalid vid) = rest.map (fun a => a) :=
          List.map_congr_left (fun y hy => by
            have hyne : y.id ≠ vid := by
              intro hcon
              exact hnd1.1 (by rw [hxid, ← hcon]; exact List.mem_map_of_mem _ hy)
            unfold setVoteInvalid
            rw [if_neg (by simpa using hyne)])
        rw [h1, List.map_id']
      have hxset : setVoteInvalid vid x = { x with isValid := false } := by
        unfold setVoteInvalid
        rw [if_pos hx]
      rw [List.map_cons, hxset, hrest, countValidVotes_cons, countValidVotes_cons, hwx]
      have hxv : x.isValid = true := hwx ▸ hv
      by_cases hcand : (x.candidate == cid) = true <;>
        simp [hcand, hxv]
    | false =>
      have hfr : rest.find? (fun y => y.id == vid) = some w := by
        rwa [@List.find?_cons_of_neg _ (fun y => y.id == vid) x rest (by simp [hx])] at hf
      obtain ⟨hle, heq⟩ := IH w hnd1.2 hfr hv
      have hxset : setVoteInvalid vid x = x := by
        unfold setVoteInvalid
        rw [if_neg (by simp [hx])]
      rw [List.map_cons, hxset, countValidVotes_cons, countValidVotes_cons, heq]
      constructor <;> omega

theorem consistent_invalidate (db : DB) (hC : Consistent db) (isAdmin : Bool) (vid : Nat)
    (w : Vote) (hnd : (db.votes.map (fun x => x.id)).Nodup)
    (hf : findVote db vid = some w) (hv : w.isValid = true) :
    Consistent (invalidateVote db isAdmin vid).2 := by
  cases isAdmin with
  | false =>
    unfold invalidateVote
    simpa using hC
  | true =>
    unfold invalidateVote
    rw [hf]
    simp only [Bool.not_true, Bool.false_eq_true, if_false]
    cases hfc : findCandidate { db with votes := db.votes.map (setVoteInvalid vid) }
        w.candidate with
    | none =>
      intro c hc
      have hall := List.find?_eq_none.mp hfc
      have hne : ¬((c.id == w.candidate) = true) := hall c hc
      have hne1 : c.id ≠ w.candidate := by simpa using hne
      have hnecand : (w.candidate == c.id) = false := by
        rw [beq_eq_false_iff_ne]
        exact Ne.symm hne1
      obtain ⟨hle, heq⟩ := countValidVotes_setInvalid vid c.id db.votes w hnd hf hv
      show c.voteCount = countValidVotes (db.votes.map (setVoteInvalid vid)) c.id
      rw [heq, hnecand]
      simpa using hC c hc
    | some c0 =>
      intro c1 hc1
      simp only [updateCandidate] at hc1
      obtain ⟨c, hc, rfl⟩ := List.mem_map.mp hc1
      obtain ⟨hle, heq⟩ := countValidVotes_setInvalid vid c.id db.votes w hnd hf hv
      by_cases hid : (c.id == w.candidate) = true
      · have hideq : c.id = w.candidate := by simpa using hid
        have hsym : (w.candidate == c.id) = true := by simp [hideq]
        rw [if_pos hid]
        show c.voteCount - 1 = countValidVotes (db.votes.map (setVoteInvalid vid)) c.id
        rw [heq, hsym, hC c hc]
        simp
      · have hne1 : c.id ≠ w.candidate := by simpa using hid
        have hsym : (w.candidate == c.id) = false := by
          rw [beq_eq_false_iff_ne]
          exact Ne.symm hne1
        rw [if_neg hid]
        show c.voteCount = countValidVotes (db.votes.map (setVoteInvalid vid)) c.id
        rw [heq, hsym]
        simpa using hC c hc

/-! ## C3 — counter consistency -/

/-- C3 counterexample: starting from a consistent store, two votes are
cast for candidate 1 and vote 100 is then invalidated twice; every step
is accepted by the routes, no operation is left in flight, yet in the
final store candidate 1 has voteCount 0 while one valid Vote record
(vote 101) still references it — the claimed quiescent counter
consistency fails. -/
theorem counter_consistency_cex :
    Consistent exDB0 ∧
      (castVote exDB0 10 1 "p" 100 0).1 = .created 100 ∧
      (castVote exDB1 11 1 "p" 101 1).1 = .created 101 ∧
      (invalidateVote exDB2 true 100).1 = .ok ∧
      (invalidateVote exDB3 true 100).1 = .ok ∧
      countValidVotes exDB4.votes 1 = 1 ∧
      (∀ c ∈ exDB4.candidates, c.id = 1 ∧ c.voteCount = 0) ∧
      ¬ Consistent exDB4 := by
  decide

/-- C3 (amended): counter consistency is preserved by every castVote and
by invalidateVote applied to a vote that is still valid (assuming distinct
vote ids, as the store's _id is unique); it is not an invariant of
arbitrary operation sequences, because re-invalidating an already-invalid
vote decrements the counter without changing the valid-vote count. -/
theorem counter_consistency_preserved (db : DB) (hC : Consistent db) :
    (∀ v cid vid ts p, Consistent (castVote db v cid p vid ts).2) ∧
      ∀ isAdmin vid w, (db.votes.map (fun x => x.id)).Nodup →
        findVote db vid = some w → w.isValid = true →
        Consistent (invalidateVote db isAdmin vid).2 :=
  ⟨fun v cid vid ts p => consistent_castVote db hC v cid vid ts p,
   fun isAdmin vid w hnd hf hv => consistent_invalidate db hC isAdmin vid w hnd hf hv⟩

theorem counter_consistency_preserved_witness :
    Consistent exDB2 ∧
      ((∀ v cid vid ts p, Consistent (castVote exDB2 v cid p vid ts).2) ∧
        ∀ isAdmin vid w, (exDB2.votes.map (fun x => x.id)).Nodup →
          findVote exDB2 vid = some w → w.isValid = true →
          Consistent (invalidateVote exDB2 isAdmin vid).2) :=
  ⟨by decide, counter_consistency_preserved exDB2 (by decide)⟩

/-! ## Helper lemmas for vote sequences -/


theorem find?_map_inc (cands : List Candidate) (cid cid' : Nat) :
    (cands.map
        (fun d => if d.id == cid then { d with voteCount := d.voteCount + 1 } else d)).find?
        (fun d => d.id == cid')
      = Option.map (fun d => if d.id == cid then { d with voteCount := d.voteCount + 1 } else d)
          (cands.find? (fun d => d.id == cid')) := by
  rw [List.find?_map]
  have hp : ((fun d : Candidate => d.id == cid') ∘ fun d =>
      if d.id == cid then { d with voteCount := d.voteCount + 1 } else d)
      = (fun d : Candidate => d.id == cid') := by
    funext d
    simp only [Function.comp_apply]
    split <;> rfl
  rw [hp]

theorem castSeq_cons (db : DB) (v cid vid ts : Nat) (p : String)
    (rest : List (Nat × Nat × Nat)) :
    castSeq db v p ((cid, vid, ts) :: rest)
      = ((castVote db v cid p vid ts).1 :: (castSeq (castVote db v cid p vid ts).2 v p rest).1,
         (castSeq (castVote db v cid p vid ts).2 v p rest).2) := rfl

theorem activeCandidate_castVote (db : DB) (v cid vid ts : Nat) (p : String) (cid' : Nat) :
    activeCandidate (castVote db v cid p vid ts).2 cid' = activeCandidate db cid' := by
  cases hfc : findCandidate db cid with
  | none =>
    unfold castVote
    rw [hfc]
  | some c =>
    cases hA : c.isActive with
    | false =>
      unfold castVote
      rw [hfc]
      simp [hA]
    | true =>
      cases hdup : findVoteByVoterPosition db v p with
      | some w =>
        unfold castVote
        rw [hfc]
        simp [hA, hdup]
      | none =>
        rw [castVote_success db v cid vid ts p c hfc hA hdup]
        unfold activeCandidate findCandidate
        dsimp only []
        rw [find?_map_inc]
        cases h : db.candidates.find? (fun d => d.id == cid') with
        | none => rfl
        | some d =>
          show (if d.id == cid then { d with voteCount := d.voteCount + 1 } else d).isActive
            = d.isActive
          split <;> rfl

theorem castSeq_duplicate_all (v : Nat) (p : String) :
    ∀ (reqs : List (Nat × Nat × Nat)) (db : DB),
      (findVoteByVoterPosition db v p).isSome = true →
      (∀ r ∈ reqs, activeCandidate db r.1 = true) →
      (castSeq db v p reqs).1 = reqs.map (fun _ => CastResult.duplicateVote) ∧
        (castSeq db v p reqs).2 = db := by
  intro reqs
  induction reqs with
  | nil =>
    intro db _ _
    exact ⟨rfl, rfl⟩
  | cons r rest IH =>
    intro db hdup hact
    obtain ⟨cid, vid, ts⟩ := r
    have hstep := castVote_duplicate db v cid vid ts p
      (hact (cid, vid, ts) (List.mem_cons_self _ _)) hdup
    rw [castSeq_cons, hstep]
    dsimp only []
    obtain ⟨h1, h2⟩ := IH db hdup (fun q hq => hact q (List.mem_cons_of_mem _ hq))
    refine ⟨?_, h2⟩
    rw [h1, List.map_cons]

/-! ## C1 — uniqueness of the (voter, position) vote -/

/-- C1: starting from a store where voter v has no vote for position p,
any nonempty sequence of castVote(v, _, p) submissions (each naming an
existing active candidate) has exactly one 201 success; every other call
returns DuplicateVote (400), and the final store holds exactly one Vote
record for (v, p) — the application-level duplicate check and the
(voter, position) unique index modelled in insertVote together enforce
the invariant. -/
theorem uniqueVotePerVoterPosition (db : DB) (v : Nat) (p : String)
    (reqs : List (Nat × Nat × Nat))
    (hfree : findVoteByVoterPosition db v p = none)
    (hact : ∀ r ∈ reqs, activeCandidate db r.1 = true)
    (hne : reqs ≠ []) :
    ((castSeq db v p reqs).1.countP CastResult.isCreated = 1) ∧
      (∀ r ∈ (castSeq db v p reqs).1, r.isCreated = false → r = .duplicateVote) ∧
      ((castSeq db v p reqs).2.votes.filter
          (fun w => w.voter == v && w.position == p)).length = 1 := by
  cases reqs with
  | nil => exact absurd rfl hne
  | cons r rest =>
    obtain ⟨cid, vid, ts⟩ := r
    have hact0 : activeCandidate db cid = true := hact (cid, vid, ts) (List.mem_cons_self _ _)
    obtain ⟨c, hfc, hA⟩ : ∃ c, findCandidate db cid = some c ∧ c.isActive = true := by
      unfold activeCandidate at hact0
      cases hfc : findCandidate db cid with
      | none => rw [hfc] at hact0; simp at hact0
      | some c =>
        rw [hfc] at hact0
        simp only [] at hact0
        exact ⟨c, rfl, hact0⟩
    have hstep := castVote_success db v cid vid ts p c hfc hA hfree
    set db1 : DB :=
      { candidates :=
          db.candidates.map
            (fun d => if d.id == cid then { d with voteCount := d.voteCount + 1 } else d),
        votes := db.votes ++ [⟨vid, v, cid, p, true, ts⟩] } with hdb1def
    have hpredw : ((⟨vid, v, cid, p, true, ts⟩ : Vote).voter == v
        && (⟨vid, v, cid, p, true, ts⟩ : Vote).position == p) = true := by simp
    have hvotes1 : db1.votes = db.votes ++ [⟨vid, v, cid, p, true, ts⟩] := rfl
    have hdup1 : (findVoteByVoterPosition db1 v p).isSome = true := by
      unfold findVoteByVoterPosition at hfree ⊢
      rw [hvotes1, List.find?_append, hfree]
      rw [@List.find?_cons_of_pos Vote (fun w => w.voter == v && w.position == p)
        ⟨vid, v, cid, p, true, ts⟩ [] hpredw]
      rfl
    have hact1 : ∀ q ∈ rest, activeCandidate db1 q.1 = true := by
      intro q hq
      have h2 := activeCandidate_castVote db v cid vid ts p q.1
      rw [hstep] at h2
      dsimp only [] at h2
      rw [h2]
      exact hact q (List.mem_cons_of_mem _ hq)
    obtain ⟨hr1, hr2⟩ := castSeq_duplicate_all v p rest db1 hdup1 hact1
    rw [castSeq_cons, hstep]
    dsimp only []
    refine ⟨?_, ?_, ?_⟩
    · rw [hr1, List.countP_cons]
      have hz : List.countP CastResult.isCreated
          (rest.map fun _ => CastResult.duplicateVote) = 0 := by
        rw [List.countP_eq_zero]
        intro a ha
        obtain ⟨_, _, rfl⟩ := List.mem_map.mp ha
        simp [CastResult.isCreated]
      rw [hz]
      rfl
    · intro x hx hxc
      rcases List.mem_cons.mp hx with h | h
      · rw [h] at hxc
        simp [CastResult.isCreated] at hxc
      · rw [hr1] at h
        obtain ⟨_, _, rfl⟩ := List.mem_map.mp h
        rfl
    · rw [hr2, hvotes1, List.filter_append]
      have hnilf : db.votes.filter (fun w => w.voter == v && w.position == p) = [] := by
        rw [List.filter_eq_nil_iff]
        exact List.find?_eq_none.mp hfree
      rw [hnilf]
      simp [hpredw]

theorem uniqueVotePerVoterPosition_witness :
    (findVoteByVoterPosition exDB0 10 "p" = none ∧
        (∀ r ∈ [((1 : Nat), (100 : Nat), (0 : Nat)), (1, 101, 1), (1, 102, 2)],
          activeCandidate exDB0 r.1 = true) ∧
        ([((1 : Nat), (100 : Nat), (0 : Nat)), (1, 101, 1), (1, 102, 2)]
          ≠ ([] : List (Nat × Nat × Nat))) ∧
        (castSeq exDB0 10 "p" [(1, 100, 0), (1, 101, 1), (1, 102, 2)]).1
          = [.created 100, .duplicateVote, .duplicateVote]) ∧
      (((castSeq exDB0 10 "p" [(1, 100, 0), (1, 101, 1), (1, 102, 2)]).1.countP
            CastResult.isCreated = 1) ∧
        (∀ r ∈ (castSeq exDB0 10 "p" [(1, 100, 0), (1, 101, 1), (1, 102, 2)]).1,
          r.isCreated = false → r = .duplicateVote) ∧
        ((castSeq exDB0 10 "p" [(1, 100, 0), (1, 101, 1), (1, 102, 2)]).2.votes.filter
            (fun w => w.voter == 10 && w.position == "p")).length = 1) :=
  ⟨⟨rfl, by decide, by decide, by decide⟩,
   uniqueVotePerVoterPosition exDB0 10 "p" [(1, 100, 0), (1, 101, 1), (1, 102, 2)]
     rfl (by decide) (by decide)⟩

/-! ## C7 — voting history -/

theorem ceilDiv_eq_natCeil (t l : Nat) (hl : 0 < l) :
    (t + l - 1) / l = ⌈(t : ℚ) / (l : ℚ)⌉₊ := by
  rcases Nat.eq_zero_or_pos t with ht | ht
  · subst ht
    rw [Nat.div_eq_of_lt (by omega)]
    symm
    simp
  · obtain ⟨r, hr, hmod⟩ : ∃ r, r < l ∧ l * ((t + l - 1) / l) + r = t + l - 1 :=
      ⟨(t + l - 1) % l, Nat.mod_lt _ hl, Nat.div_add_mod (t + l - 1) l⟩
    set q := (t + l - 1) / l with hqdef
    set A := l * q with hA
    have hq0 : q ≠ 0 := by
      intro h0
      rw [h0, Nat.mul_zero] at hA
      omega
    have hnat2 : t ≤ q * l := by
      rw [Nat.mul_comm]
      omega
    have hnat1 : (q - 1) * l < t := by
      have hsub : (q - 1) * l = q * l - l := by rw [Nat.sub_one_mul]
      rw [hsub, Nat.mul_comm]
      omega
    symm
    rw [Nat.ceil_eq_iff hq0]
    have hlq : (0 : ℚ) < (l : ℚ) := by exact_mod_cast hl
    constructor
    · rw [lt_div_iff hlq]
      exact_mod_cast hnat1
    · rw [div_le_iff hlq]
      exact_mod_cast hnat2

/-- C7: GET /history returns only the caller's Vote records, sorted by
createdAt descending (most recent first), pages them by page and limit
(at most limit records per page), and reports
totalPages = ceil(total / limit). -/
theorem votingHistory_spec (db : DB) (v page limit : Nat) (hl : 0 < limit) :
    (∀ w ∈ (votingHistory db v page limit).votes, w.voter = v) ∧
      List.Pairwise byCreatedAtDesc (votingHistory db v page limit).votes ∧
      (votingHistory db v page limit).votes.length ≤ limit ∧
      (votingHistory db v page limit).totalPages
        = ⌈((votingHistory db v page limit).total : ℚ) / (limit : ℚ)⌉₊ := by
  refine ⟨?_, ?_, ?_, ?_⟩
  · intro w hw
    have h0 : w ∈ (List.insertionSort byCreatedAtDesc
        (db.votes.filter (fun x => x.voter == v))).drop ((page - 1) * limit) :=
      List.take_subset _ _ hw
    have h1 : w ∈ List.insertionSort byCreatedAtDesc
        (db.votes.filter (fun x => x.voter == v)) :=
      List.drop_subset _ _ h0
    have h2 : w ∈ db.votes.filter (fun x => x.voter == v) :=
      (List.perm_insertionSort byCreatedAtDesc _).mem_iff.mp h1
    have h3 := (List.mem_filter.mp h2).2
    simpa using h3
  · have hs : List.Sorted byCreatedAtDesc (List.insertionSort byCreatedAtDesc
        (db.votes.filter (fun x => x.voter == v))) :=
      List.sorted_insertionSort byCreatedAtDesc _
    exact List.Pairwise.sublist ((List.take_sublist _ _).trans (List.drop_sublist _ _)) hs
  · exact List.length_take_le _ _
  · show ((db.votes.filter (fun x => x.voter == v)).length + limit - 1) / limit
      = ⌈(((db.votes.filter (fun x => x.voter == v)).length : ℚ)) / (limit : ℚ)⌉₊
    exact ceilDiv_eq_natCeil _ limit hl

theorem votingHistory_spec_witness :
    0 < 2 ∧
      ((∀ w ∈ (votingHistory exHistDB 5 1 2).votes, w.voter = 5) ∧
        List.Pairwise byCreatedAtDesc (votingHistory exHistDB 5 1 2).votes ∧
        (votingHistory exHistDB 5 1 2).votes.length ≤ 2 ∧
        (votingHistory exHistDB 5 1 2).totalPages
          = ⌈((votingHistory exHistDB 5 1 2).total : ℚ) / ((2 : Nat) : ℚ)⌉₊) :=
  ⟨by decide, votingHistory_spec exHistDB 5 1 2 (by decide)⟩

/-! ## C8 — authentication rate limiting -/

theorem lookupRL_setRL (m : List (String × RLEntry)) (ip : String) (e : RLEntry) :
    lookupRL (setRL m ip e) ip = some e := by
  induction m with
  | nil => simp [setRL, lookupRL]
  | cons kv rest IH =>
    obtain ⟨k, e0⟩ := kv
    by_cases hk : (k == ip) = true
    · simp [setRL, lookupRL, hk]
    · simp [setRL, lookupRL, hk, IH]

theorem rateLimitRun_cons (m : List (String × RLEntry)) (ip : String) (t : Nat)
    (ts : List Nat) :
    rateLimitRun m ip (t :: ts)
      = ((if (rateLimitAuth m ip t).1 then 1 else 0)
            + (rateLimitRun (rateLimitAuth m ip t).2 ip ts).1,
         (rateLimitRun (rateLimitAuth m ip t).2 ip ts).2) := rfl

theorem rateLimitAuth_blocked (m : List (String × RLEntry)) (ip : String) (e : RLEntry)
    (now : Nat) (hlk : lookupRL m ip = some e) (hwin : now ≤ e.resetTime)
    (hc : maxAttempts ≤ e.count) :
    rateLimitAuth m ip now = (false, setRL m ip e) := by
  unfold rateLimitAuth
  rw [hlk]
  dsimp only []
  rw [if_neg (by omega : ¬ e.resetTime < now), if_pos hc]

theorem rateLimitAuth_allowed (m : List (String × RLEntry)) (ip : String) (e : RLEntry)
    (now : Nat) (hlk : lookupRL m ip = some e) (hwin : now ≤ e.resetTime)
    (hc : e.count < maxAttempts) :
    rateLimitAuth m ip now = (true, setRL m ip { e with count := e.count + 1 }) := by
  unfold rateLimitAuth
  rw [hlk]
  dsimp only []
  rw [if_neg (by omega : ¬ e.resetTime < now), if_neg (by omega : ¬ maxAttempts ≤ e.count)]

theorem rateLimitAuth_reset (m : List (String × RLEntry)) (ip : String) (e : RLEntry)
    (now : Nat) (hlk : lookupRL m ip = some e) (hexp : e.resetTime < now) :
    rateLimitAuth m ip now = (true, setRL m ip ⟨1, now + windowMs⟩) := by
  unfold rateLimitAuth
  rw [hlk]
  dsimp only []
  rw [if_pos hexp, if_neg (by decide : ¬ maxAttempts ≤ (0 : Nat))]

theorem rateLimitAuth_fresh (m : List (String × RLEntry)) (ip : String) (now : Nat)
    (hlk : lookupRL m ip = none) :
    rateLimitAuth m ip now = (true, setRL m ip ⟨1, now + windowMs⟩) := by
  unfold rateLimitAuth
  rw [hlk]
  dsimp only []
  rw [if_neg (by omega : ¬ now + windowMs < now),
    if_neg (by decide : ¬ maxAttempts ≤ (0 : Nat))]

theorem rateLimitRun_window (ip : String) (T : Nat) :
    ∀ (ts : List Nat) (m : List (String × RLEntry)) (c : Nat),
      lookupRL m ip = some ⟨c, T⟩ →
      (∀ t ∈ ts, t ≤ T) →
      (rateLimitRun m ip ts).1 = min ts.length (maxAttempts - c) ∧
        ∃ c2, lookupRL (rateLimitRun m ip ts).2 ip = some ⟨c2, T⟩ := by
  intro ts
  induction ts with
  | nil =>
    intro m c hlk _
    exact ⟨by simp [rateLimitRun], c, hlk⟩
  | cons t rest IH =>
    intro m c hlk hwin
    have ht : t ≤ T := hwin t (List.mem_cons_self _ _)
    have hrest : ∀ t2 ∈ rest, t2 ≤ T := fun t2 h => hwin t2 (List.mem_cons_of_mem _ h)
    by_cases hc : maxAttempts ≤ c
    · have hstep := rateLimitAuth_blocked m ip ⟨c, T⟩ t hlk ht hc
      rw [rateLimitRun_cons, hstep]
      dsimp only []
      obtain ⟨h1, c2, h2⟩ := IH (setRL m ip ⟨c, T⟩) c (lookupRL_setRL m ip _) hrest
      refine ⟨?_, c2, h2⟩
      rw [h1]
      show 0 + min rest.length (maxAttempts - c) = min (rest.length + 1) (maxAttempts - c)
      omega
    · push_neg at hc
      have hstep := rateLimitAuth_allowed m ip ⟨c, T⟩ t hlk ht hc
      rw [rateLimitRun_cons, hstep]
      dsimp only []
      obtain ⟨h1, c2, h2⟩ := IH (setRL m ip ⟨c + 1, T⟩) (c + 1) (lookupRL_setRL m ip _) hrest
      refine ⟨?_, c2, h2⟩
      rw [h1]
      show 1 + min rest.length (maxAttempts - (c + 1)) = min (rest.length + 1) (maxAttempts - c)
      omega

/-- C8: the authentication limiter is a fixed-window counter keyed by
client address.  From a fresh address, a burst of requests whose times all
fall within windowMs of the first has exactly min(count, maxAttempts)
requests processed — once the counter reaches maxAttempts every further
request in the window is answered 429 — and the first request after the
window's resetTime passes is processed again with the counter reset
to 1. -/
theorem rateLimitAuth_spec (m : List (String × RLEntry)) (ip : String) (t0 : Nat)
    (ts : List Nat) (tNext : Nat)
    (hfresh : lookupRL m ip = none)
    (hwin : ∀ t ∈ ts, t ≤ t0 + windowMs)
    (hexp : t0 + windowMs < tNext) :
    (rateLimitRun m ip (t0 :: ts)).1 = min (ts.length + 1) maxAttempts ∧
      (rateLimitAuth (rateLimitRun m ip (t0 :: ts)).2 ip tNext).1 = true ∧
      lookupRL (rateLimitAuth (rateLimitRun m ip (t0 :: ts)).2 ip tNext).2 ip
        = some ⟨1, tNext + windowMs⟩ := by
  have hstep := rateLimitAuth_fresh m ip t0 hfresh
  obtain ⟨h1, c2, h2⟩ := rateLimitRun_window ip (t0 + windowMs) ts
    (setRL m ip ⟨1, t0 + windowMs⟩) 1 (lookupRL_setRL m ip _) hwin
  have hrun : rateLimitRun m ip (t0 :: ts)
      = (1 + (rateLimitRun (setRL m ip ⟨1, t0 + windowMs⟩) ip ts).1,
         (rateLimitRun (setRL m ip ⟨1, t0 + windowMs⟩) ip ts).2) := by
    rw [rateLimitRun_cons, hstep]
    rfl
  have hreset := rateLimitAuth_reset (rateLimitRun (setRL m ip ⟨1, t0 + windowMs⟩) ip ts).2
    ip ⟨c2, t0 + windowMs⟩ tNext h2 hexp
  refine ⟨?_, ?_, ?_⟩
  · rw [hrun]
    dsimp only []
    rw [h1, show maxAttempts = 5 from rfl]
    omega
  · rw [hrun]
    dsimp only []
    rw [hreset]
  · rw [hrun]
    dsimp only []
    rw [hreset]
    exact lookupRL_setRL _ ip _

theorem rateLimitAuth_spec_witness :
    (lookupRL ([] : List (String × RLEntry)) "a" = none ∧
        (∀ t ∈ [1, 2, 3, 4, 5, 6], t ≤ 0 + windowMs) ∧
        0 + windowMs < windowMs + 1) ∧
      ((rateLimitRun [] "a" (0 :: [1, 2, 3, 4, 5, 6])).1
          = min (([1, 2, 3, 4, 5, 6] : List Nat).length + 1) maxAttempts ∧
        (rateLimitAuth (rateLimitRun [] "a" (0 :: [1, 2, 3, 4, 5, 6])).2 "a"
            (windowMs + 1)).1 = true ∧
        lookupRL (rateLimitAuth (rateLimitRun [] "a" (0 :: [1, 2, 3, 4, 5, 6])).2 "a"
            (windowMs + 1)).2 "a"
          = some ⟨1, (windowMs + 1) + windowMs⟩) :=
  ⟨⟨rfl, by decide, by decide⟩,
   rateLimitAuth_spec [] "a" 0 [1, 2, 3, 4, 5, 6] (windowMs + 1) rfl (by decide) (by decide)⟩

/-! ## C5 — the percentage law of GET /results/:position -/

theorem sum_indicator_not_mem (a : Nat) :
    ∀ (ids : List Nat), a ∉ ids →
      ((ids.map (fun i => if a == i then 1 else 0)).sum : Nat) = 0 := by
  intro ids
  induction ids with
  | nil => intro _; rfl
  | cons i rest IH =>
    intro hna
    rw [List.map_cons, List.sum_cons]
    have hne : a ≠ i := fun h => hna (h ▸ List.mem_cons_self i rest)
    rw [if_neg (by simpa using hne), IH (fun h => hna (List.mem_cons_of_mem _ h))]

theorem sum_indicator_mem (a : Nat) :
    ∀ (ids : List Nat), ids.Nodup → a ∈ ids →
      ((ids.map (fun i => if a == i then 1 else 0)).sum : Nat) = 1 := by
  intro ids
  induction ids with
  | nil =>
    intro _ h
    simp at h
  | cons i rest IH =>
    intro hnd hmem
    rw [List.map_cons, List.sum_cons]
    rcases List.mem_cons.mp hmem with heq | hmem2
    · subst heq
      rw [if_pos (by simp)]
      rw [sum_indicator_not_mem a rest (List.nodup_cons.mp hnd).1]
    · have hne : a ≠ i := by
        intro h
        subst h
        exact (List.nodup_cons.mp hnd).1 hmem2
      rw [if_neg (by simpa using hne), IH (List.nodup_cons.mp hnd).2 hmem2]

theorem sum_countValid (p : String) :
    ∀ (votes : List Vote) (cands : List Candidate),
      (cands.map (fun c => c.id)).Nodup →
      (∀ w ∈ votes, w.position = p → w.isValid = true ∧
        w.candidate ∈ cands.map (fun c => c.id)) →
      (∀ w ∈ votes, w.isValid = true → w.candidate ∈ cands.map (fun c => c.id) →
        w.position = p) →
      ((cands.map (fun c => countValidVotes votes c.id)).sum : Nat)
        = (votes.filter (fun w => w.position == p)).length := by
  intro votes
  induction votes with
  | nil =>
    intro cands _ _ _
    simp [countValidVotes]
  | cons w rest IH =>
    intro cands hnd h1 h2
    have hrw : cands.map (fun c => countValidVotes (w :: rest) c.id)
        = cands.map (fun c =>
            (if w.candidate == c.id && w.isValid then 1 else 0)
              + countValidVotes rest c.id) :=
      List.map_congr_left (fun c _ => countValidVotes_cons w rest c.id)
    rw [hrw, List.sum_map_add]
    have hIH := IH cands hnd (fun x hx => h1 x (List.mem_cons_of_mem _ hx))
      (fun x hx => h2 x (List.mem_cons_of_mem _ hx))
    rw [hIH]
    by_cases hp : w.position = p
    · obtain ⟨hv, hmem⟩ := h1 w (List.mem_cons_self _ _) hp
      have hind : (cands.map
          (fun c => if w.candidate == c.id && w.isValid then 1 else 0)).sum = 1 := by
        have hcongr : cands.map (fun c => if w.candidate == c.id && w.isValid then 1 else 0)
            = cands.map (fun c => if w.candidate == c.id then 1 else 0) :=
          List.map_congr_left (fun c _ => by rw [hv, Bool.and_true])
        rw [hcongr]
        have hs := sum_indicator_mem w.candidate _ hnd hmem
        rw [List.map_map] at hs
        simpa [Function.comp] using hs
      rw [hind]
      rw [show (w :: rest).filter (fun x => x.position == p)
          = w :: rest.filter (fun x => x.position == p)
        from by rw [List.filter_cons, if_pos (by simp [hp])]]
      simp [Nat.add_comm]
    · have hind : (cands.map
          (fun c => if w.candidate == c.id && w.isValid then 1 else 0)).sum = 0 := by
        have hcongr : cands.map (fun c => if w.candidate == c.id && w.isValid then 1 else 0)
            = cands.map (fun _ => (0 : Nat)) := by
          apply List.map_congr_left
          intro c hc
          cases hv : w.isValid with
          | false => simp
          | true =>
            have hnm : w.candidate ≠ c.id := by
              intro hcon
              apply hp
              apply h2 w (List.mem_cons_self _ _) hv
              rw [hcon]
              exact List.mem_map_of_mem (fun c => c.id) hc
            simp [hnm]
        rw [hcongr]
        simp
      rw [hind]
      rw [show (w :: rest).filter (fun x => x.position == p)
          = rest.filter (fun x => x.position == p)
        from by rw [List.filter_cons, if_neg (by simp [hp])]]
      simp

/-- C5 counterexample: in the reachable store exDB3 (two Vote records for
candidate 1 at position "p", one of them invalidated, counter 1) the
route's percentage is voteCount over the number of stored Vote records
for the position (2), giving 50, while the claimed formula — voteCount
over the sum of voteCount across active candidates of the position —
gives 100; the percentages over active candidates sum to 50, far outside
rounding tolerance of 100. -/
theorem percentage_denominator_cex :
    (resultsForPosition exDB3 "p").results = [⟨1, "X", 1, 50⟩] ∧
      (resultsForPosition exDB3 "p").totalVotes = 2 ∧
      (⟨1, "X", "p", true, 1⟩ : Candidate) ∈ exDB3.candidates ∧
      specActiveSumPercentage exDB3 "p" ⟨1, "X", "p", true, 1⟩ = 100 ∧
      (50 : Rat) ≠ 100 := by
  rw [show exDB3 = ⟨[⟨1, "X", "p", true, 1⟩],
    [⟨100, 10, 1, "p", false, 0⟩, ⟨101, 11, 1, "p", true, 1⟩]⟩ from by decide]
  have hres : resultsForPosition
      (⟨[⟨1, "X", "p", true, 1⟩],
        [⟨100, 10, 1, "p", false, 0⟩, ⟨101, 11, 1, "p", true, 1⟩]⟩ : DB) "p"
      = { results := [⟨1, "X", 1, ((1 : Nat) : Rat) / ((2 : Nat) : Rat) * 100⟩],
          totalVotes := 2, totalCandidates := 1 } := rfl
  rw [hres]
  refine ⟨?_, rfl, by decide, ?_, by norm_num⟩
  · norm_num
  · unfold specActiveSumPercentage
    norm_num

/-- C5 (amended): the denominator of the route's percentage is the number
of Vote records stored for the position (valid or invalid), not the sum of
active candidates' counters.  When that record count is zero every
percentage is the number 0; and whenever every stored vote for the
position is valid and references one of the position's active candidates
(distinct ids, counters consistent, and no valid vote for those candidates
sits under another position), the percentages over active candidates sum
to exactly 100. -/
theorem percentage_law_amended (db : DB) (p : String)
    (hC : Consistent db)
    (hnd : ((db.candidates.filter (fun c => c.position == p && c.isActive)).map
        (fun c => c.id)).Nodup)
    (h1 : ∀ w ∈ db.votes, w.position = p → w.isValid = true ∧
        w.candidate ∈ (db.candidates.filter (fun c => c.position == p && c.isActive)).map
          (fun c => c.id))
    (h2 : ∀ w ∈ db.votes, w.isValid = true →
        w.candidate ∈ (db.candidates.filter (fun c => c.position == p && c.isActive)).map
          (fun c => c.id) →
        w.position = p) :
    ((resultsForPosition db p).totalVotes = 0 →
        ∀ e ∈ (resultsForPosition db p).results, e.percentage = 0) ∧
      ((resultsForPosition db p).totalVotes ≠ 0 →
        ((resultsForPosition db p).results.map (fun e => e.percentage)).sum = 100) := by
  have htv : (resultsForPosition db p).totalVotes
      = (db.votes.filter (fun w => w.position == p)).length := rfl
  have hres : (resultsForPosition db p).results
      = (List.insertionSort byVoteCountDesc
          (db.candidates.filter (fun c => c.position == p && c.isActive))).map
        (fun c => ⟨c.id, c.name, c.voteCount,
          if (db.votes.filter (fun w => w.position == p)).length > 0 then
            ((c.voteCount : Rat)
                / (((db.votes.filter (fun w => w.position == p)).length : Nat) : Rat)) * 100
          else 0⟩) := rfl
  constructor
  · intro hT e he
    rw [htv] at hT
    rw [hres] at he
    obtain ⟨c, hc, rfl⟩ := List.mem_map.mp he
    show (if (db.votes.filter (fun w => w.position == p)).length > 0 then
        ((c.voteCount : Rat)
            / (((db.votes.filter (fun w => w.position == p)).length : Nat) : Rat)) * 100
      else 0) = 0
    simp [hT]
  · intro hT
    rw [htv] at hT
    rw [hres, List.map_map]
    have hpos : 0 < (db.votes.filter (fun w => w.position == p)).length :=
      Nat.pos_of_ne_zero hT
    have hcong : (List.insertionSort byVoteCountDesc
          (db.candidates.filter (fun c => c.position == p && c.isActive))).map
            ((fun e : ResultEntry => e.percentage) ∘ (fun c => ⟨c.id, c.name, c.voteCount,
              if (db.votes.filter (fun w => w.position == p)).length > 0 then
                ((c.voteCount : Rat)
                    / (((db.votes.filter (fun w => w.position == p)).length : Nat) : Rat))
                  * 100
              else 0⟩))
        = (List.insertionSort byVoteCountDesc
            (db.candidates.filter (fun c => c.position == p && c.isActive))).map
            (fun c => ((c.voteCount : Nat) : Rat)
              * (100 / (((db.votes.filter (fun w => w.position == p)).length : Nat) : Rat))) := by
      apply List.map_congr_left
      intro c _
      simp only [Function.comp_apply]
      rw [if_pos hpos]
      ring
    rw [hcong, List.sum_map_mul_right]
    have hperm := List.perm_insertionSort byVoteCountDesc
      (db.candidates.filter (fun c => c.position == p && c.isActive))
    have hsumperm := (hperm.map (fun c => ((c.voteCount : Nat) : Rat))).sum_eq
    rw [hsumperm]
    have hnatmap : (db.candidates.filter (fun c => c.position == p && c.isActive)).map
          (fun c => ((c.voteCount : Nat) : Rat))
        = ((db.candidates.filter (fun c => c.position == p && c.isActive)).map
            (fun c => c.voteCount)).map (fun n : Nat => (n : Rat)) := by
      rw [List.map_map]
      rfl
    rw [hnatmap, ← Nat.cast_list_sum]
    have hvc : (db.candidates.filter (fun c => c.position == p && c.isActive)).map
          (fun c => c.voteCount)
        = (db.candidates.filter (fun c => c.position == p && c.isActive)).map
            (fun c => countValidVotes db.votes c.id) :=
      List.map_congr_left (fun c hc => hC c (List.mem_of_mem_filter hc))
    rw [hvc, sum_countValid p db.votes _ hnd h1 h2]
    have hne : (((db.votes.filter (fun w => w.position == p)).length : Nat) : Rat) ≠ 0 :=
      Nat.cast_ne_zero.mpr hT
    field_simp

theorem percentage_law_amended_witness :
    (Consistent exDB2 ∧
        ((exDB2.candidates.filter (fun c => c.position == "p" && c.isActive)).map
            (fun c => c.id)).Nodup ∧
        (∀ w ∈ exDB2.votes, w.position = "p" → w.isValid = true ∧
          w.candidate ∈ (exDB2.candidates.filter
              (fun c => c.position == "p" && c.isActive)).map (fun c => c.id)) ∧
        (∀ w ∈ exDB2.votes, w.isValid = true →
          w.candidate ∈ (exDB2.candidates.filter
              (fun c => c.position == "p" && c.isActive)).map (fun c => c.id) →
          w.position = "p")) ∧
      (((resultsForPosition exDB2 "p").totalVotes = 0 →
          ∀ e ∈ (resultsForPosition exDB2 "p").results, e.percentage = 0) ∧
        ((resultsForPosition exDB2 "p").totalVotes ≠ 0 →
          ((resultsForPosition exDB2 "p").results.map (fun e => e.percentage)).sum = 100)) :=
  ⟨⟨by decide, by decide, by decide, by decide⟩,
   percentage_law_amended exDB2 "p" (by decide) (by decide) (by decide) (by decide)⟩

end DecisionDeck
